import Mathlib

/-!
Verification of the Carter navigation environment's perception and action
pipeline, shallowly embedded from
`source/extensions/omni.isaac.lab_tasks/omni/isaac/lab_tasks/direct/carter/carter_env.py`.

Tensors over float values are modelled as lists of exact rationals (or reals
where square roots and arc tangents appear); a batched `(N, d)` tensor becomes
a list of `N` rows.  A Python exception is modelled by an `Option`-valued
function returning `none`.
-/

namespace Carter

/-- One 720-length range scan row. -/
abbrev Frame := List ℚ

/-! ### Module-level constants (carter_env.py lines 26-31) -/

def NUM_TP : ℕ := 10

def motor_scale : ℚ := 1/2

def joint_base : ℚ := 42

def base_width : ℚ := 4132/10000

def system_gain : ℚ := 5/4

/-! ### differential_drive_solver (carter_env.py lines 485-508)

For each instance the code reads `vx = actions[i,0]`, `wf = actions[i,1]`,
builds a zero vector of 7 joint slots and writes `action[1] = pl`,
`action[2] = pr`. -/

def differential_drive_solver (actions : List (ℚ × ℚ)) : List (List ℚ) :=
  actions.map (fun a =>
    let vx := a.1
    let wf := a.2
    let vx_base := motor_scale
    let pl_pr_base := joint_base
    let gain := system_gain
    let v_left := vx - (wf * base_width / 2)
    let v_right := vx + (wf * base_width / 2)
    let pl := gain * (v_left / vx_base) * pl_pr_base
    let pr := gain * (v_right / vx_base) * pl_pr_base
    [0, pl, pr, 0, 0, 0, 0])

/-- C4: for every per-instance command `(vx, wf)` the differential-drive solver
returns a 7-wide actuator-target vector whose slot 1 is
`gain*(v_left/nominal_velocity)*joint_effort_base` with `v_left = vx - wf*W/2`,
whose slot 2 is the symmetric right-wheel value, and whose other slots are all
zero; at `(vx, wf) = (1/2, -1/2)` the two targets round to 63.35 and 41.65. -/
theorem differential_drive_solver_c4 (actions : List (ℚ × ℚ)) (i : ℕ)
    (hi : i < actions.length) :
    ((differential_drive_solver actions).getD i []).length = 7 ∧
    ((differential_drive_solver actions).getD i []).getD 1 0 =
      system_gain * (((actions.getD i (0, 0)).1 -
        (actions.getD i (0, 0)).2 * base_width / 2) / motor_scale) * joint_base ∧
    ((differential_drive_solver actions).getD i []).getD 2 0 =
      system_gain * (((actions.getD i (0, 0)).1 +
        (actions.getD i (0, 0)).2 * base_width / 2) / motor_scale) * joint_base ∧
    (∀ j, j < 7 → j ≠ 1 → j ≠ 2 →
      ((differential_drive_solver actions).getD i []).getD j 0 = 0) ∧
    (|((differential_drive_solver [((1:ℚ)/2, -(1:ℚ)/2)]).getD 0 []).getD 1 0
        - 6335/100| < 1/200 ∧
     |((differential_drive_solver [((1:ℚ)/2, -(1:ℚ)/2)]).getD 0 []).getD 2 0
        - 4165/100| < 1/200) := by
  have hrow : (differential_drive_solver actions).getD i [] =
      (fun a : ℚ × ℚ =>
        [0, system_gain * ((a.1 - (a.2 * base_width / 2)) / motor_scale) * joint_base,
         system_gain * ((a.1 + (a.2 * base_width / 2)) / motor_scale) * joint_base,
         0, 0, 0, 0]) (actions.getD i (0, 0)) := by
    unfold differential_drive_solver
    rw [List.getD_eq_getElem?_getD, List.getElem?_map]
    rw [List.getElem?_eq_getElem hi]
    simp [List.getD_eq_getElem?_getD, List.getElem?_eq_getElem hi]
  have hconc : (differential_drive_solver [((1:ℚ)/2, -(1:ℚ)/2)]).getD 0 [] =
      [0, system_gain * (((1:ℚ)/2 - (-(1:ℚ)/2 * base_width / 2)) / motor_scale) * joint_base,
       system_gain * (((1:ℚ)/2 + (-(1:ℚ)/2 * base_width / 2)) / motor_scale) * joint_base,
       0, 0, 0, 0] := by
    simp [differential_drive_solver]
  refine ⟨by rw [hrow]; rfl, by rw [hrow]; rfl, by rw [hrow]; rfl, ?_, ?_, ?_⟩
  · intro j hj hj1 hj2
    rw [hrow]
    interval_cases j <;> simp_all
  · rw [hconc]
    norm_num [system_gain, base_width, motor_scale, joint_base, abs_lt]
  · rw [hconc]
    norm_num [system_gain, base_width, motor_scale, joint_base, abs_lt]

/-- Witness for C4 at the concrete command batch `[(1/2, -1/2)]`. -/
theorem differential_drive_solver_c4_witness :
    0 < ([((1:ℚ)/2, -(1:ℚ)/2)] : List (ℚ × ℚ)).length ∧
    (((differential_drive_solver [((1:ℚ)/2, -(1:ℚ)/2)]).getD 0 []).length = 7 ∧
     ((differential_drive_solver [((1:ℚ)/2, -(1:ℚ)/2)]).getD 0 []).getD 1 0 =
      system_gain * ((([((1:ℚ)/2, -(1:ℚ)/2)].getD 0 (0, 0)).1 -
        ([((1:ℚ)/2, -(1:ℚ)/2)].getD 0 (0, 0)).2 * base_width / 2) / motor_scale) * joint_base ∧
     ((differential_drive_solver [((1:ℚ)/2, -(1:ℚ)/2)]).getD 0 []).getD 2 0 =
      system_gain * ((([((1:ℚ)/2, -(1:ℚ)/2)].getD 0 (0, 0)).1 +
        ([((1:ℚ)/2, -(1:ℚ)/2)].getD 0 (0, 0)).2 * base_width / 2) / motor_scale) * joint_base ∧
     (∀ j, j < 7 → j ≠ 1 → j ≠ 2 →
       ((differential_drive_solver [((1:ℚ)/2, -(1:ℚ)/2)]).getD 0 []).getD j 0 = 0) ∧
     (|((differential_drive_solver [((1:ℚ)/2, -(1:ℚ)/2)]).getD 0 []).getD 1 0
         - 6335/100| < 1/200 ∧
      |((differential_drive_solver [((1:ℚ)/2, -(1:ℚ)/2)]).getD 0 []).getD 2 0
         - 4165/100| < 1/200)) :=
  ⟨by decide, differential_drive_solver_c4 [((1:ℚ)/2, -(1:ℚ)/2)] 0 (by decide)⟩

/-! ### lidar_pooling (carter_env.py lines 362-428)

`torch.min` / `torch.mean` of a 1-D tensor become `listMin` / `listMean`;
`t[a:b]` becomes `slice`.  The incoming scan tensor is either degenerate
(`dim() <= 1`: a scalar, the empty tensor, or any 1-D tensor) or a proper
2-D batch of per-instance frames.  The first returned component is a tensor
whose rank depends on the branch taken, modelled by `TTensor`. -/

def listMin : List ℚ → ℚ
  | [] => 0
  | x :: xs => xs.foldl min x

def listMean (l : List ℚ) : ℚ := l.sum / l.length

def slice (l : List ℚ) (a len : ℕ) : List ℚ := (l.drop a).take len

/-- `lidar_avg`: the 20×80 grid written by the double loop at lines 400-408,
rows listed in index order `0, 1, ..., 19`; row `2n` holds the bin minima and
row `2n+1` the bin means of the slice `cnn_lidar[j, n*720:(n+1)*720]`. -/
def poolGrid (cnn_row : List ℚ) : List (List ℚ) :=
  (List.range NUM_TP).flatMap (fun n =>
    let lidar_tmp := slice cnn_row (n * 720) 720
    [(List.range 80).map (fun i => listMin (slice lidar_tmp (i * 9) 9)),
     (List.range 80).map (fun i => listMean (slice lidar_tmp (i * 9) 9))])

def s_min : ℚ := 0

def s_max : ℚ := 30

/-- The affine normalization `2 * (x - s_min) / (s_max - s_min) + (-1)`
applied at line 421; no clamping is performed. -/
def pool_normalize (x : ℚ) : ℚ := 2 * (x - s_min) / (s_max - s_min) + (-1)

/-- Lines 414-422: flatten the grid to 1600 entries, `repeat(1, 4)` to 6400,
then normalize. -/
def poolOne (cnn_row : List ℚ) : List ℚ :=
  let lidar_avg := (poolGrid cnn_row).flatten
  let lidar_avg_map := lidar_avg ++ lidar_avg ++ lidar_avg ++ lidar_avg
  lidar_avg_map.map pool_normalize

/-- The `_scan_tmp` argument: either a tensor with `dim() <= 1` or a 2-D
batch of per-instance frames. -/
inductive ScanIn where
  | degen
  | batch (frames : List Frame)

/-- A torch tensor of rank 1, 2 or 3, as returned in the first component of
`lidar_pooling`. -/
inductive TTensor where
  | T1 (v : List ℚ)
  | T2 (m : List (List ℚ))
  | T3 (c : List (List (List ℚ)))
deriving DecidableEq

/-- Lines 379-385: per instance, start a fresh one-frame history when
`_lidar_history_data.size(0) == 0`, otherwise append the current frame. -/
def stackFrames (history : List (List Frame)) (scan : List Frame) :
    List (List Frame) :=
  if history.isEmpty then scan.map (fun f => [f])
  else List.zipWith (fun h f => h ++ [f]) history scan

/-- Lines 362-428.  Returns
`(lidar_data_final, pooling_flag, lidar_history_data, pooling_tns)`. -/
def lidar_pooling (lidar_history_data : List (List Frame)) (scan_tmp : ScanIn)
    (pooling_tns : ℕ) : TTensor × Bool × List (List Frame) × ℕ :=
  match scan_tmp with
  | .degen => (.T1 [], false, [], 0)
  | .batch frames =>
    let cnn_lidar_tmp := stackFrames lidar_history_data frames
    let tns1 := pooling_tns + 1
    if tns1 = NUM_TP then
      let cnn_lidar := cnn_lidar_tmp.map (fun fs => fs.flatten)
      let newHist := cnn_lidar_tmp.map (fun fs => (fs.drop 1).take (NUM_TP - 1))
      (.T2 (cnn_lidar.map poolOne), true, newHist, NUM_TP - 1)
    else
      (.T3 cnn_lidar_tmp, false, cnn_lidar_tmp, tns1)

/-- Extract the 2-D payload of a `TTensor` (the pooled features when the
flag is set). -/
def featuresOf : TTensor → List (List ℚ)
  | .T2 m => m
  | _ => []

/-- The `(lidar_history_data, pooling_tns)` pair stored back by the caller
(`_get_observations`, lines 203-204). -/
abbrev PoolState := List (List Frame) × ℕ

def poolStep (s : PoolState) (scan : ScanIn) : PoolState :=
  ((lidar_pooling s.1 scan s.2).2.2.1, (lidar_pooling s.1 scan s.2).2.2.2)

def poolFlag (s : PoolState) (scan : ScanIn) : Bool :=
  (lidar_pooling s.1 scan s.2).2.1

/-- State after `k` ticks, starting from the empty history and zero counter,
where tick `t ≥ 1` feeds the valid batch `scans t`. -/
def stateAfter (scans : ℕ → List Frame) : ℕ → PoolState
  | 0 => ([], 0)
  | k + 1 => poolStep (stateAfter scans k) (.batch (scans (k + 1)))

/-- The pooling flag emitted on tick `k ≥ 1`. -/
def flagAt (scans : ℕ → List Frame) (k : ℕ) : Bool :=
  poolFlag (stateAfter scans (k - 1)) (.batch (scans k))

/-- The frames fed to instance `i` during ticks `1..k`. -/
def framesUpTo (scans : ℕ → List Frame) (k i : ℕ) : List Frame :=
  (List.range k).map (fun j => (scans (j + 1)).getD i [])

/-- Shared fact: the degenerate branch at lines 372-373. -/
theorem lidar_pooling_degen (history : List (List Frame)) (tns : ℕ) :
    lidar_pooling history .degen tns = (.T1 [], false, [], 0) := rfl

/-- C8: a degenerate (scalar or zero/one-dimensional) range input makes the
pooling step return empty results with `pooling_flag = false` for the whole
batch — no instance is populated and no exception escapes. -/
theorem lidar_pooling_degen_c8 (history : List (List Frame)) (tns : ℕ) :
    lidar_pooling history .degen tns = (.T1 [], false, [], 0) ∧
    featuresOf (lidar_pooling history .degen tns).1 = [] :=
  ⟨lidar_pooling_degen history tns, rfl⟩

theorem framesUpTo_succ (scans : ℕ → List Frame) (k i : ℕ) :
    framesUpTo scans (k + 1) i =
      framesUpTo scans k i ++ [(scans (k + 1)).getD i []] := by
  unfold framesUpTo
  rw [List.range_succ, List.map_append]
  rfl

theorem framesUpTo_length (scans : ℕ → List Frame) (k i : ℕ) :
    (framesUpTo scans k i).length = k := by
  unfold framesUpTo
  rw [List.length_map, List.length_range]

/-- Unfolding equation of `lidar_pooling` on a 2-D batch. -/
theorem lidar_pooling_batch (history : List (List Frame)) (frames : List Frame)
    (tns : ℕ) :
    lidar_pooling history (.batch frames) tns =
      if tns + 1 = NUM_TP then
        (.T2 (((stackFrames history frames).map (fun fs => fs.flatten)).map
            poolOne), true,
         (stackFrames history frames).map
            (fun fs => (fs.drop 1).take (NUM_TP - 1)), NUM_TP - 1)
      else
        (.T3 (stackFrames history frames), false, stackFrames history frames,
         tns + 1) := rfl

/-- Characterization of the stored pooling state after `k` valid ticks from
the empty state: the counter is `min k 9` and each instance's history holds
the most recent `min k 9` of the frames fed so far. -/
theorem stateAfter_spec (scans : ℕ → List Frame) (N : ℕ)
    (hN : ∀ t, 1 ≤ t → (scans t).length = N) :
    ∀ k, (stateAfter scans k).2 = min k 9 ∧
      (stateAfter scans k).1.length = (if k = 0 then 0 else N) ∧
      ∀ (i : ℕ) (hi : i < (stateAfter scans k).1.length),
        (stateAfter scans k).1[i] = (framesUpTo scans k i).drop (k - 9) := by
  intro k
  induction k with
  | zero => exact ⟨rfl, rfl, fun i hi => absurd hi (by simp [stateAfter])⟩
  | succ k ih =>
    obtain ⟨htns, hlen, hhist⟩ := ih
    have hf : (scans (k + 1)).length = N := hN (k + 1) (by omega)
    set s := stateAfter scans k with hs
    set f := scans (k + 1) with hfdef
    -- the stacked history built at lines 379-385
    have hcnn_len : (stackFrames s.1 f).length = N := by
      unfold stackFrames
      by_cases h : s.1.isEmpty
      · rw [if_pos h, List.length_map, hf]
      · rw [if_neg h, List.length_zipWith, hf]
        have hkpos : ¬ k = 0 := by
          intro h0
          apply h
          rw [hs, h0]
          rfl
        have : s.1.length = N := by rw [hlen, if_neg hkpos]
        omega
    have hcnn : ∀ (i : ℕ) (hi : i < (stackFrames s.1 f).length),
        (stackFrames s.1 f)[i] = (framesUpTo scans (k + 1) i).drop (k - 9) := by
      intro i hi
      have hiN : i < N := hcnn_len ▸ hi
      by_cases h : s.1.isEmpty
      · have hsf : stackFrames s.1 f = f.map (fun fr => [fr]) := by
          unfold stackFrames
          rw [if_pos h]
        have hk0 : k = 0 := by
          rcases Nat.eq_zero_or_pos k with h0 | hpos
          · exact h0
          · exfalso
            have hsl : s.1.length = N := by
              rw [hlen, if_neg (Nat.pos_iff_ne_zero.mp hpos)]
            have hN0 : s.1.length = 0 := List.isEmpty_iff_length_eq_zero.mp h
            omega
        rw [List.getElem_of_eq hsf hi, List.getElem_map]
        subst hk0
        have hi' : i < f.length := by rw [hf]; exact hiN
        rw [framesUpTo_succ]
        unfold framesUpTo
        simp only [List.range_zero, List.map_nil, List.nil_append,
          Nat.zero_sub, List.drop_zero]
        rw [List.getD_eq_getElem f [] hi']
      · have hkpos : ¬ k = 0 := by
          intro h0
          apply h
          rw [hs, h0]
          rfl
        have hslen : s.1.length = N := by rw [hlen, if_neg hkpos]
        have hsf : stackFrames s.1 f =
            List.zipWith (fun h fr => h ++ [fr]) s.1 f := by
          unfold stackFrames
          rw [if_neg h]
        rw [List.getElem_of_eq hsf hi, List.getElem_zipWith]
        have hbs : i < s.1.length := by omega
        have hbf : i < f.length := by omega
        have h1 : s.1[i] = (framesUpTo scans k i).drop (k - 9) :=
          hhist i hbs
        have h2 : f[i] = f.getD i [] :=
          (List.getD_eq_getElem f [] hbf).symm
        rw [h1, h2, framesUpTo_succ,
          List.drop_append_of_le_length (by rw [framesUpTo_length]; omega)]
    have hstep : stateAfter scans (k + 1) =
        if s.2 + 1 = NUM_TP then
          ((stackFrames s.1 f).map (fun fs => (fs.drop 1).take (NUM_TP - 1)),
           NUM_TP - 1)
        else (stackFrames s.1 f, s.2 + 1) := by
      show poolStep s (.batch f) = _
      unfold poolStep
      rw [lidar_pooling_batch]
      by_cases hfire : s.2 + 1 = NUM_TP
      · simp only [if_pos hfire]
      · simp only [if_neg hfire]
    by_cases hfire : s.2 + 1 = NUM_TP
    · have hk9 : 9 ≤ k := by
        rw [htns] at hfire
        unfold NUM_TP at hfire
        omega
      rw [if_pos hfire] at hstep
      refine ⟨by rw [hstep]; show NUM_TP - 1 = _; unfold NUM_TP; omega, ?_, ?_⟩
      · rw [hstep]
        show ((stackFrames s.1 f).map _).length = _
        rw [List.length_map, hcnn_len, if_neg (by omega)]
      · intro i hi
        have hl : (stateAfter scans (k + 1)).1 =
            (stackFrames s.1 f).map (fun fs => (fs.drop 1).take (NUM_TP - 1)) :=
          congrArg Prod.fst hstep
        rw [List.getElem_of_eq hl hi, List.getElem_map]
        have hi' : i < (stackFrames s.1 f).length := by
          have := hi
          rw [hl, List.length_map] at this
          exact this
        rw [hcnn i hi']
        have hY : (framesUpTo scans (k + 1) i).length = k + 1 :=
          framesUpTo_length scans (k + 1) i
        rw [List.drop_drop]
        have harith : k - 9 + 1 = k - 8 := by omega
        have harith2 : k + 1 - 9 = k - 8 := by omega
        rw [harith, harith2]
        apply List.take_of_length_le
        rw [List.length_drop, hY]
        unfold NUM_TP
        omega
    · have hk8 : k ≤ 8 := by
        rw [htns] at hfire
        unfold NUM_TP at hfire
        omega
      rw [if_neg hfire] at hstep
      refine ⟨by rw [hstep]; show s.2 + 1 = _; rw [htns]; omega, ?_, ?_⟩
      · rw [hstep]
        show (stackFrames s.1 f).length = _
        rw [hcnn_len, if_neg (by omega)]
      · intro i hi
        have hl : (stateAfter scans (k + 1)).1 = stackFrames s.1 f :=
          congrArg Prod.fst hstep
        rw [List.getElem_of_eq hl hi]
        have hi' : i < (stackFrames s.1 f).length := by
          have := hi
          rw [hl] at this
          exact this
        rw [hcnn i hi']
        have h1 : k - 9 = 0 := by omega
        have h2 : k + 1 - 9 = 0 := by omega
        rw [h1, h2]

/-- Shared fact: starting from the empty history and zero counter, the
pooling flag of tick `k ≥ 1` is set exactly when `k ≥ 10`. -/
theorem flagAt_iff (scans : ℕ → List Frame) (N : ℕ)
    (hN : ∀ t, 1 ≤ t → (scans t).length = N) :
    ∀ k, 1 ≤ k → (flagAt scans k = true ↔ 10 ≤ k) := by
  intro k hk
  have htns := (stateAfter_spec scans N hN (k - 1)).1
  unfold flagAt poolFlag
  rw [lidar_pooling_batch]
  by_cases hfire : (stateAfter scans (k - 1)).2 + 1 = NUM_TP
  · rw [if_pos hfire]
    rw [htns] at hfire
    unfold NUM_TP at hfire
    constructor
    · intro _
      omega
    · intro _
      rfl
  · rw [if_neg hfire]
    rw [htns] at hfire
    unfold NUM_TP at hfire
    constructor
    · intro hc
      exact absurd hc (by simp)
    · intro h10
      exfalso
      apply hfire
      omega

/-- C2: from the empty history and zero counter, fed one valid batch per
tick, the pooling flag first fires on exactly the 10th tick and on every
tick thereafter; after each reduction the counter is 9 and each instance
retains exactly the most recent 9 frames; the stored history length never
exceeds 10. -/
theorem pooling_warmup_c2 (scans : ℕ → List Frame) (N : ℕ)
    (hN : ∀ t, 1 ≤ t → (scans t).length = N)
    (_hframes : ∀ t f, 1 ≤ t → f ∈ scans t → f.length = 720) :
    (∀ k, 1 ≤ k → (flagAt scans k = true ↔ 10 ≤ k)) ∧
    (∀ k, 10 ≤ k → (stateAfter scans k).2 = 9 ∧
      ∀ (i : ℕ) (hi : i < (stateAfter scans k).1.length),
        (stateAfter scans k).1[i] = (framesUpTo scans k i).drop (k - 9) ∧
        ((framesUpTo scans k i).drop (k - 9)).length = 9) ∧
    (∀ k l, l ∈ (stateAfter scans k).1 → l.length ≤ 10) := by
  refine ⟨flagAt_iff scans N hN, ?_, ?_⟩
  · intro k hk
    obtain ⟨htns, _, hhist⟩ := stateAfter_spec scans N hN k
    refine ⟨by rw [htns]; omega, ?_⟩
    intro i hi
    refine ⟨hhist i hi, ?_⟩
    rw [List.length_drop, framesUpTo_length]
    omega
  · intro k l hl
    obtain ⟨_, _, hhist⟩ := stateAfter_spec scans N hN k
    obtain ⟨i, hi, hval⟩ := List.mem_iff_getElem.mp hl
    rw [← hval, hhist i hi, List.length_drop, framesUpTo_length]
    omega

/-- Witness for C2: with one instance fed the all-zero 720-frame every tick,
the flag is off on tick 9 and on on tick 10. -/
theorem pooling_warmup_c2_witness :
    flagAt (fun _ => [List.replicate 720 (0:ℚ)]) 10 = true ∧
    ¬ flagAt (fun _ => [List.replicate 720 (0:ℚ)]) 9 = true := by
  have h := (pooling_warmup_c2 (fun _ => [List.replicate 720 (0:ℚ)]) 1
    (fun t ht => rfl)
    (fun t f ht hf => by
      rw [List.mem_singleton] at hf
      rw [hf]
      exact List.length_replicate 720 0)).1
  exact ⟨(h 10 (by decide)).mpr (by decide),
    fun hc => by have h9 := (h 9 (by decide)).mp hc; omega⟩

/-- C10: a degenerate tick returns an empty history and counter 0 to the
caller, so the accumulated history of every instance is discarded and ten
fresh valid ticks are again needed before the flag can fire. -/
theorem degen_wipe_c10 :
    (∀ (history : List (List Frame)) (tns : ℕ),
      lidar_pooling history .degen tns = (.T1 [], false, [], 0)) ∧
    (∀ (scans : ℕ → List Frame) (N : ℕ), (∀ t, 1 ≤ t → (scans t).length = N) →
      ∀ k, 1 ≤ k → (flagAt scans k = true ↔ 10 ≤ k)) :=
  ⟨lidar_pooling_degen, fun scans N hN => flagAt_iff scans N hN⟩

/-- Witness for C10 at a concrete non-empty history and a concrete scan
stream. -/
theorem degen_wipe_c10_witness :
    lidar_pooling [[List.replicate 720 (5:ℚ)]] .degen 7 = (.T1 [], false, [], 0) ∧
    (flagAt (fun _ => [List.replicate 720 (1:ℚ)]) 10 = true ↔ 10 ≤ 10) :=
  ⟨degen_wipe_c10.1 _ 7,
   degen_wipe_c10.2 (fun _ => [List.replicate 720 (1:ℚ)]) 1
     (fun t ht => rfl) 10 (by decide)⟩

/-! ### The reduction algorithm (C1)

`specGrid`, `spec_normalize` and `specPooledFeature` follow the spec's
wording (grid rows indexed directly by frame number); comparing them with
the code's `poolOne`, which slices the flattened history, settles C1. -/

/-- Slicing the flattened history at `n*720 : (n+1)*720` recovers frame `n`
when every frame has length 720. -/
theorem flatten_slice (fs : List (List ℚ)) (n : ℕ)
    (hlen : ∀ f ∈ fs, f.length = 720) (hn : n < fs.length) :
    slice fs.flatten (n * 720) 720 = fs.getD n [] := by
  induction fs generalizing n with
  | nil => simp at hn
  | cons f rest ih =>
    cases n with
    | zero =>
      unfold slice
      simp only [Nat.zero_mul, List.drop_zero, List.flatten_cons,
        List.getD_cons_zero]
      have hf : f.length = 720 := hlen f (by simp)
      rw [← hf, List.take_left]
    | succ m =>
      unfold slice
      have hf : f.length = 720 := hlen f (by simp)
      have harith : (m + 1) * 720 = f.length + m * 720 := by rw [hf]; ring
      rw [List.flatten_cons, harith, List.drop_append, List.getD_cons_succ]
      exact ih m (fun g hg => hlen g (List.mem_cons_of_mem f hg))
        (by simpa using hn)

/-- The grid as the spec words it: row `2n` holds the 80 bin minima of
frame `n`, row `2n+1` the 80 bin means. -/
def specGrid (frames : List Frame) : List (List ℚ) :=
  (List.range NUM_TP).flatMap (fun n =>
    [(List.range 80).map (fun i => listMin (slice (frames.getD n []) (i * 9) 9)),
     (List.range 80).map (fun i => listMean (slice (frames.getD n []) (i * 9) 9))])

/-- The spec's affine normalization `2*(x-0)/(30-0) - 1`. -/
def spec_normalize (x : ℚ) : ℚ := 2 * (x - 0) / (30 - 0) - 1

/-- The spec's pooled feature: flatten the grid, replicate 4 times to width
6400, normalize without clamping. -/
def specPooledFeature (frames : List Frame) : List ℚ :=
  let flatGrid := (specGrid frames).flatten
  (flatGrid ++ flatGrid ++ flatGrid ++ flatGrid).map spec_normalize

theorem pool_normalize_eq_spec (x : ℚ) : pool_normalize x = spec_normalize x := by
  unfold pool_normalize spec_normalize s_min s_max
  ring

/-- The code's reduction of a flattened 10×720 history equals the spec's
per-frame reduction. -/
theorem poolOne_spec (fs : List Frame) (h10 : fs.length = NUM_TP)
    (h720 : ∀ f ∈ fs, f.length = 720) :
    poolOne fs.flatten = specPooledFeature fs := by
  have hgrid : poolGrid fs.flatten = specGrid fs := by
    unfold poolGrid specGrid
    apply List.flatMap_congr
    intro n hn
    have hn' : n < fs.length := by
      rw [h10]
      exact List.mem_range.mp hn
    rw [flatten_slice fs n h720 hn']
  unfold poolOne specPooledFeature
  rw [hgrid]
  exact List.map_congr_left (fun a _ => pool_normalize_eq_spec a)

theorem flatMap_pair_length (A B : ℕ → List ℚ) (k : ℕ) :
    ((List.range k).flatMap (fun m => [A m, B m])).length = 2 * k := by
  rw [List.length_flatMap]
  have h : List.map (List.length ∘ fun m => [A m, B m]) (List.range k) =
      List.replicate k 2 := by
    rw [List.eq_replicate_iff]
    constructor
    · rw [List.length_map, List.length_range]
    · intro b hb
      rw [List.mem_map] at hb
      obtain ⟨m, _, hm⟩ := hb
      rw [← hm]
      rfl
  rw [h, List.sum_replicate, smul_eq_mul]
  omega

/-- Indexing into a flatMap of two-row blocks: entry `2n` is the first row
of block `n` and entry `2n+1` the second. -/
theorem flatMap_pair_getD (A B : ℕ → List ℚ) :
    ∀ (k n : ℕ), n < k →
      ((List.range k).flatMap (fun m => [A m, B m])).getD (2 * n) [] = A n ∧
      ((List.range k).flatMap (fun m => [A m, B m])).getD (2 * n + 1) [] = B n := by
  intro k
  induction k with
  | zero => intro n hn; exact absurd hn (by omega)
  | succ k ih =>
    intro n hn
    rw [List.range_succ, List.flatMap_append]
    have hlen := flatMap_pair_length A B k
    rcases Nat.lt_or_ge n k with hnk | hnk
    · have h2n : 2 * n < ((List.range k).flatMap (fun m => [A m, B m])).length := by
        rw [hlen]
        omega
      have h2n1 : 2 * n + 1 <
          ((List.range k).flatMap (fun m => [A m, B m])).length := by
        rw [hlen]
        omega
      constructor
      · rw [List.getD_append _ _ _ _ h2n]
        exact (ih n hnk).1
      · rw [List.getD_append _ _ _ _ h2n1]
        exact (ih n hnk).2
    · have hk : n = k := by omega
      subst hk
      constructor
      · rw [List.getD_append_right _ _ _ _ (by rw [hlen])]
        rw [hlen, Nat.sub_self]
        simp [List.flatMap_cons]
      · rw [List.getD_append_right _ _ _ _ (by rw [hlen]; omega)]
        rw [hlen, show 2 * n + 1 - 2 * n = 1 from by omega]
        simp [List.flatMap_cons]

theorem range_map_getD (g : ℕ → ℚ) (i k : ℕ) (hik : i < k) :
    ((List.range k).map g).getD i 0 = g i := by
  rw [List.getD_eq_getElem _ _ (by simp [hik]), List.getElem_map,
    List.getElem_range]

theorem specGrid_map_length (fs : List Frame) :
    (specGrid fs).map List.length = List.replicate 20 80 := by
  unfold specGrid
  rw [List.map_flatMap]
  have h : ∀ n ∈ List.range NUM_TP,
      (List.map List.length
        [(List.range 80).map (fun i => listMin (slice (fs.getD n []) (i * 9) 9)),
         (List.range 80).map (fun i => listMean (slice (fs.getD n []) (i * 9) 9))])
      = [80, 80] := by
    intro n _
    simp
  rw [List.flatMap_congr h]
  unfold NUM_TP
  decide

theorem specPooledFeature_length (fs : List Frame) :
    (specPooledFeature fs).length = 6400 := by
  have h1 : ((specGrid fs).flatten).length = 1600 := by
    rw [List.length_flatten, specGrid_map_length]
    decide
  unfold specPooledFeature
  rw [List.length_map, List.length_append, List.length_append,
    List.length_append, h1]

/-- C1: with a full history (9 stored frames plus the incoming one, all of
length 720), `lidar_pooling` fires and emits, per instance, exactly the
spec's pooled feature: a 20×80 grid with `min` of each 9-sample bin of frame
`n` in row `2n` and `mean` in row `2n+1`, flattened, replicated 4 times to
width 6400, and normalized by `2*(x-0)/(30-0) - 1` with no clamping, so
values above 30 map above 1 and values below 0 map below -1. -/
theorem pooling_reduction_c1
    (history : List (List Frame)) (frames : List Frame) (N : ℕ)
    (hN : 0 < N) (hh : history.length = N) (hf : frames.length = N)
    (hh9 : ∀ h ∈ history, h.length = 9)
    (h720 : ∀ h ∈ history, ∀ f ∈ h, f.length = 720)
    (hf720 : ∀ f ∈ frames, f.length = 720) :
    (lidar_pooling history (.batch frames) 9).2.1 = true ∧
    (lidar_pooling history (.batch frames) 9).1 =
      .T2 ((List.zipWith (fun h f => h ++ [f]) history frames).map
        specPooledFeature) ∧
    (∀ fs ∈ List.zipWith (fun h f => h ++ [f]) history frames,
      (specPooledFeature fs).length = 6400) ∧
    (∀ (fs : List Frame) (n i : ℕ), n < NUM_TP → i < 80 →
      ((specGrid fs).getD (2 * n) []).getD i 0 =
        listMin (slice (fs.getD n []) (i * 9) 9) ∧
      ((specGrid fs).getD (2 * n + 1) []).getD i 0 =
        listMean (slice (fs.getD n []) (i * 9) 9)) ∧
    (∀ x : ℚ, (30 < x → 1 < pool_normalize x) ∧
      (x < 0 → pool_normalize x < -1)) := by
  have hne : ¬ history.isEmpty := by
    rw [List.isEmpty_iff_length_eq_zero, hh]
    omega
  have hstack : stackFrames history frames =
      List.zipWith (fun h f => h ++ [f]) history frames := by
    unfold stackFrames
    rw [if_neg hne]
  have hmem : ∀ fs ∈ List.zipWith (fun h f => h ++ [f]) history frames,
      fs.length = NUM_TP ∧ ∀ f ∈ fs, f.length = 720 := by
    intro fs hfs
    obtain ⟨i, hi, hval⟩ := List.mem_iff_getElem.mp hfs
    rw [List.getElem_zipWith] at hval
    have hih : i < history.length := by
      rw [List.length_zipWith] at hi
      omega
    have hif : i < frames.length := by
      rw [List.length_zipWith] at hi
      omega
    have hhist_mem : history[i] ∈ history := List.getElem_mem hih
    have hframe_mem : frames[i] ∈ frames := List.getElem_mem hif
    constructor
    · rw [← hval, List.length_append, hh9 _ hhist_mem]
      rfl
    · intro f hfm
      rw [← hval, List.mem_append] at hfm
      rcases hfm with hfm | hfm
      · exact h720 _ hhist_mem f hfm
      · rw [List.mem_singleton] at hfm
        rw [hfm]
        exact hf720 _ hframe_mem
  refine ⟨?_, ?_, ?_, ?_, ?_⟩
  · rw [lidar_pooling_batch, if_pos (by rfl)]
  · rw [lidar_pooling_batch, if_pos (by rfl)]
    show TTensor.T2 _ = _
    rw [hstack, List.map_map]
    refine congrArg TTensor.T2 (List.map_congr_left ?_)
    intro fs hfs
    obtain ⟨hlen10, hall720⟩ := hmem fs hfs
    exact poolOne_spec fs hlen10 hall720
  · intro fs _
    exact specPooledFeature_length fs
  · intro fs n i hn hi
    have h := flatMap_pair_getD
      (fun n => (List.range 80).map (fun i => listMin (slice (fs.getD n []) (i * 9) 9)))
      (fun n => (List.range 80).map (fun i => listMean (slice (fs.getD n []) (i * 9) 9)))
      NUM_TP n hn
    unfold specGrid
    exact ⟨by rw [h.1]; exact range_map_getD _ i 80 hi,
           by rw [h.2]; exact range_map_getD _ i 80 hi⟩
  · intro x
    unfold pool_normalize s_min s_max
    have hdiv : 2 * (x - 0) / (30 - 0) = x * (1 / 15) := by ring
    rw [hdiv]
    constructor
    · intro hx
      linarith
    · intro hx
      linarith

/-- Witness for C1: one instance whose 9 stored frames and incoming frame
are all-zero 720-vectors. -/
theorem pooling_reduction_c1_witness :
    (lidar_pooling [List.replicate 9 (List.replicate 720 (0:ℚ))]
      (.batch [List.replicate 720 (0:ℚ)]) 9).2.1 = true ∧
    (lidar_pooling [List.replicate 9 (List.replicate 720 (0:ℚ))]
      (.batch [List.replicate 720 (0:ℚ)]) 9).1 =
      .T2 ((List.zipWith (fun h f => h ++ [f])
        [List.replicate 9 (List.replicate 720 (0:ℚ))]
        [List.replicate 720 (0:ℚ)]).map specPooledFeature) :=
  have h := pooling_reduction_c1
    [List.replicate 9 (List.replicate 720 (0:ℚ))]
    [List.replicate 720 (0:ℚ)] 1 (by decide) rfl rfl
    (fun g hmem => by
      rw [List.mem_singleton] at hmem
      rw [hmem]
      exact List.length_replicate 9 _)
    (fun g hmem f hfm => by
      rw [List.mem_singleton] at hmem
      rw [hmem] at hfm
      rw [List.eq_of_mem_replicate hfm]
      exact List.length_replicate 720 0)
    (fun f hfm => by
      rw [List.mem_singleton] at hfm
      rw [hfm]
      exact List.length_replicate 720 0)
  ⟨h.1, h.2.1⟩

/-! ### Observation assembly (carter_env.py lines 224-251, C6) -/

/-- The observation block of `_get_observations`: `ped_pos` is the all-zero
`(num_envs, 12800)` tensor built at line 224; when `pooling_flag` is set the
observation is `torch.cat((ped_pos, lidar_data_final, subgoal), dim=1)`,
otherwise `torch.zeros(num_envs, 19202)`. -/
def observation_assemble (num_envs : ℕ) (pooling_flag : Bool)
    (lidar_data_final : List (List ℚ)) (subgoal : List (List ℚ)) :
    List (List ℚ) :=
  let ped_pos := List.replicate num_envs (List.replicate 12800 (0:ℚ))
  if pooling_flag then
    List.zipWith (fun pl s => pl ++ s)
      (List.zipWith (fun p l => p ++ l) ped_pos lidar_data_final) subgoal
  else List.replicate num_envs (List.replicate 19202 (0:ℚ))

theorem flatMap_pair_flatten_length (A B : ℕ → List ℚ) (k : ℕ)
    (hA : ∀ n, (A n).length = 80) (hB : ∀ n, (B n).length = 80) :
    (((List.range k).flatMap (fun m => [A m, B m])).flatten).length = 160 * k := by
  induction k with
  | zero => rfl
  | succ k ih =>
    rw [List.range_succ, List.flatMap_append, List.flatten_append,
      List.length_append, ih]
    simp only [List.flatMap_cons, List.flatMap_nil, List.append_nil,
      List.flatten_cons, List.flatten_nil, List.length_append, hA, hB]
    omega

/-- `poolOne` always emits exactly 6400 entries. -/
theorem poolOne_length (l : List ℚ) : (poolOne l).length = 6400 := by
  have h : ((poolGrid l).flatten).length = 1600 := by
    unfold poolGrid
    exact flatMap_pair_flatten_length _ _ NUM_TP
      (fun n => by rw [List.length_map, List.length_range])
      (fun n => by rw [List.length_map, List.length_range])
  unfold poolOne
  rw [List.length_map, List.length_append, List.length_append,
    List.length_append, h]

/-- When the flag fires, every row of the emitted feature tensor has
exactly 6400 entries. -/
theorem lidar_pooling_feature_length (history : List (List Frame))
    (frames : List Frame) (tns : ℕ)
    (hflag : (lidar_pooling history (.batch frames) tns).2.1 = true) :
    ∀ row ∈ featuresOf (lidar_pooling history (.batch frames) tns).1,
      row.length = 6400 := by
  rw [lidar_pooling_batch] at hflag ⊢
  by_cases hfire : tns + 1 = NUM_TP
  · rw [if_pos hfire]
    intro row hrow
    have hrow' : row ∈ ((stackFrames history frames).map
        (fun fs => fs.flatten)).map poolOne := hrow
    rw [List.mem_map] at hrow'
    obtain ⟨x, _, hx⟩ := hrow'
    rw [← hx]
    exact poolOne_length x
  · rw [if_neg hfire] at hflag
    exact absurd hflag (by simp)

/-- C6: the emitted observation always has exactly 19202 entries per
instance: when the flag fires it is `ped_pos (12800 zeros) ++ pooled feature
(6400) ++ goal feature (2)` per instance, and when it does not fire it is the
all-zero `(N, 19202)` tensor, never a partial vector. -/
theorem observation_width_c6 (history : List (List Frame))
    (frames : List Frame) (tns : ℕ) (subgoal : List (List ℚ)) (N : ℕ)
    (hflag : (lidar_pooling history (.batch frames) tns).2.1 = true)
    (hNfeat : (featuresOf (lidar_pooling history (.batch frames) tns).1).length = N)
    (hsub : subgoal.length = N)
    (hsub2 : ∀ s ∈ subgoal, s.length = 2) :
    ((observation_assemble N true
        (featuresOf (lidar_pooling history (.batch frames) tns).1) subgoal).length = N ∧
      ∀ row ∈ observation_assemble N true
        (featuresOf (lidar_pooling history (.batch frames) tns).1) subgoal,
        row.length = 19202) ∧
    observation_assemble N false
        (featuresOf (lidar_pooling history (.batch frames) tns).1) subgoal =
      List.replicate N (List.replicate 19202 (0:ℚ)) := by
  set feats := featuresOf (lidar_pooling history (.batch frames) tns).1 with hfeats
  have hrowlen : ∀ row ∈ feats, row.length = 6400 :=
    lidar_pooling_feature_length history frames tns hflag
  refine ⟨⟨?_, ?_⟩, rfl⟩
  · show (List.zipWith _ (List.zipWith _ _ _) _).length = N
    rw [List.length_zipWith, List.length_zipWith, List.length_replicate,
      hNfeat, hsub]
    omega
  · intro row hrow
    have hrow' : row ∈ List.zipWith (fun pl s => pl ++ s)
        (List.zipWith (fun p l => p ++ l)
          (List.replicate N (List.replicate 12800 (0:ℚ))) feats) subgoal := hrow
    rw [List.mem_iff_getElem] at hrow'
    obtain ⟨i, hi, hval⟩ := hrow'
    rw [List.getElem_zipWith] at hval
    have hi1 : i < (List.zipWith (fun p l => p ++ l)
        (List.replicate N (List.replicate 12800 (0:ℚ))) feats).length := by
      rw [List.length_zipWith] at hi
      omega
    have hi2 : i < subgoal.length := by
      rw [List.length_zipWith] at hi
      omega
    have hirep : i < (List.replicate N (List.replicate 12800 (0:ℚ))).length := by
      have hcopy := hi1
      rw [List.length_zipWith, List.length_replicate] at hcopy
      rw [List.length_replicate]
      omega
    have hif : i < feats.length := by
      have hcopy := hi1
      rw [List.length_zipWith] at hcopy
      omega
    have hval1 : (List.zipWith (fun p l => p ++ l)
        (List.replicate N (List.replicate 12800 (0:ℚ))) feats)[i] =
        (List.replicate N (List.replicate 12800 (0:ℚ)))[i] ++ feats[i] :=
      List.getElem_zipWith
    rw [← hval, hval1, List.getElem_replicate]
    rw [List.length_append, List.length_append, List.length_replicate,
      hrowlen _ (List.getElem_mem hif), hsub2 _ (List.getElem_mem hi2)]

/-- Witness for C6: one instance, full all-zero history, zero subgoal
feature. -/
theorem observation_width_c6_witness :
    ((observation_assemble 1 true
        (featuresOf (lidar_pooling [List.replicate 9 (List.replicate 720 (0:ℚ))]
          (.batch [List.replicate 720 (0:ℚ)]) 9).1) [[0, 0]]).length = 1 ∧
      ∀ row ∈ observation_assemble 1 true
        (featuresOf (lidar_pooling [List.replicate 9 (List.replicate 720 (0:ℚ))]
          (.batch [List.replicate 720 (0:ℚ)]) 9).1) [[0, 0]],
        row.length = 19202) ∧
    observation_assemble 1 false
        (featuresOf (lidar_pooling [List.replicate 9 (List.replicate 720 (0:ℚ))]
          (.batch [List.replicate 720 (0:ℚ)]) 9).1) [[0, 0]] =
      List.replicate 1 (List.replicate 19202 (0:ℚ)) :=
  observation_width_c6 [List.replicate 9 (List.replicate 720 (0:ℚ))]
    [List.replicate 720 (0:ℚ)] 9 [[0, 0]] 1 rfl rfl rfl
    (fun s hs => by
      rw [List.mem_singleton] at hs
      rw [hs]
      rfl)

/-! ### raw_lidar_process (carter_env.py lines 328-360, C3)

Per-reading (one sensor key) embedding.  The z-band mask computed from the
point cloud selects entries of both parallel arrays (modelled by filtering
the zipped pairs); `[0:970]` truncates; `torch.linspace(0, L-1, 720).long()`
yields the exact indices `⌊k*(L-1)/719⌋`.  Fancy indexing with an index out
of bounds — which happens exactly when the filtered arrays are empty while
the raw reading is not — raises `IndexError`, modelled as `none`. -/

abbrev Point3 := ℚ × ℚ × ℚ

def z_min : ℚ := -2/100

def z_max : ℚ := 2/100

def raw_lidar_process_one (points : List Point3) (ranges : List ℚ) :
    Option (List Point3 × List ℚ) :=
  if points.length ≠ 0 then
    let filtered := ((points.zip ranges).filter
      (fun pr => decide (z_min ≤ pr.1.2.2) && decide (pr.1.2.2 ≤ z_max))).take 970
    let num_samples := 720
    let indices := (List.range num_samples).map
      (fun k => k * (filtered.length - 1) / 719)
    if indices.all (fun i => i < filtered.length) then
      let sel := indices.map (fun i => filtered.getD i (((0:ℚ), 0, 0), 0))
      some (sel.map (fun pr => pr.1), sel.map (fun pr => pr.2))
    else none
  else some ([], [])

set_option maxRecDepth 4000 in
/-- Shared fact: a non-empty reading whose points all fall outside the
z-band reaches the fancy-indexing step with empty filtered arrays and
raises. -/
theorem raw_lidar_none_of_empty_filter (points : List Point3)
    (ranges : List ℚ) (hne : points.length ≠ 0)
    (hfil : (points.zip ranges).filter
      (fun pr => decide (z_min ≤ pr.1.2.2) && decide (pr.1.2.2 ≤ z_max)) = []) :
    raw_lidar_process_one points ranges = none := by
  unfold raw_lidar_process_one
  rw [if_pos hne, hfil]
  rfl

/-- Selection helper: each selected output pair is an entry of the filtered
list. -/
theorem sel_mem_filtered (filtered : List (Point3 × ℚ)) (indices : List ℕ)
    (sel : List (Point3 × ℚ))
    (hseleq : sel = indices.map (fun i => filtered.getD i (((0:ℚ), 0, 0), 0)))
    (hindices : indices =
      (List.range 720).map (fun k => k * (filtered.length - 1) / 719))
    (hidx : ∀ k, k < 720 → k * (filtered.length - 1) / 719 < filtered.length)
    (hsellen : sel.length = 720) (j : ℕ) (hj : j < 720) :
    ((sel.map (fun pr => pr.1)).getD j ((0:ℚ), 0, 0),
     (sel.map (fun pr => pr.2)).getD j 0) ∈ filtered := by
  have hjP : j < (sel.map (fun pr : Point3 × ℚ => pr.1)).length := by
    rw [List.length_map, hsellen]
    omega
  have hjR : j < (sel.map (fun pr : Point3 × ℚ => pr.2)).length := by
    rw [List.length_map, hsellen]
    omega
  have hjs : j < sel.length := by
    rw [hsellen]
    omega
  have hji : j < indices.length := by
    rw [hindices, List.length_map, List.length_range]
    omega
  have hidxj : indices[j] < filtered.length := by
    have hval : indices[j] = j * (filtered.length - 1) / 719 := by
      rw [List.getElem_of_eq hindices hji, List.getElem_map,
        List.getElem_range]
    rw [hval]
    exact hidx j hj
  have hselj : sel[j] = filtered.getD indices[j] (((0:ℚ), 0, 0), 0) := by
    rw [List.getElem_of_eq hseleq hjs, List.getElem_map]
  have hP : (sel.map (fun pr : Point3 × ℚ => pr.1)).getD j ((0:ℚ), 0, 0) =
      sel[j].1 := by
    rw [List.getD_eq_getElem _ _ hjP, List.getElem_map]
  have hR : (sel.map (fun pr : Point3 × ℚ => pr.2)).getD j 0 =
      sel[j].2 := by
    rw [List.getD_eq_getElem _ _ hjR, List.getElem_map]
  rw [hP, hR, hselj, List.getD_eq_getElem _ _ hidxj]
  exact List.getElem_mem hidxj

set_option maxRecDepth 4000 in
set_option maxHeartbeats 1000000 in
/-- Shared fact: with at least one surviving point the preprocessor returns
`some` outputs of length exactly 720 whose entries are entries of the
truncated filtered arrays. -/
theorem raw_lidar_some_of_survivor (points : List Point3) (ranges : List ℚ)
    (hsurv : ∃ pr ∈ points.zip ranges,
      z_min ≤ pr.1.2.2 ∧ pr.1.2.2 ≤ z_max) :
    ∃ outP outR, raw_lidar_process_one points ranges = some (outP, outR) ∧
      outP.length = 720 ∧ outR.length = 720 ∧
      ∀ j, j < 720 →
        (outP.getD j ((0:ℚ), 0, 0), outR.getD j 0) ∈
          ((points.zip ranges).filter
            (fun pr => decide (z_min ≤ pr.1.2.2) && decide (pr.1.2.2 ≤ z_max))).take 970 := by
  obtain ⟨pr, hprmem, hpr1, hpr2⟩ := hsurv
  have hne : points.length ≠ 0 := by
    intro h0
    rw [List.length_eq_zero] at h0
    rw [h0] at hprmem
    simp [List.zip] at hprmem
  set filtered := ((points.zip ranges).filter
    (fun pr => decide (z_min ≤ pr.1.2.2) && decide (pr.1.2.2 ≤ z_max))).take 970
    with hfiltered
  have hfne : filtered.length ≠ 0 := by
    intro h0
    rw [List.length_eq_zero] at h0
    have hmem : pr ∈ (points.zip ranges).filter
        (fun pr => decide (z_min ≤ pr.1.2.2) && decide (pr.1.2.2 ≤ z_max)) := by
      rw [List.mem_filter]
      exact ⟨hprmem, by
        rw [Bool.and_eq_true, decide_eq_true_eq, decide_eq_true_eq]
        exact ⟨hpr1, hpr2⟩⟩
    rcases List.take_eq_nil_iff.mp h0 with h970 | hnil
    · omega
    · rw [hnil] at hmem
      exact List.not_mem_nil pr hmem
  have hidx : ∀ k, k < 720 → k * (filtered.length - 1) / 719 < filtered.length := by
    intro k hk
    have h2 : k * (filtered.length - 1) ≤ 719 * (filtered.length - 1) :=
      Nat.mul_le_mul_right _ (by omega)
    have h3 : k * (filtered.length - 1) / 719 ≤
        719 * (filtered.length - 1) / 719 := Nat.div_le_div_right h2
    rw [Nat.mul_div_cancel_left _ (by omega : 0 < 719)] at h3
    omega
  set indices := (List.range 720).map
    (fun k => k * (filtered.length - 1) / 719) with hindices
  set sel := indices.map (fun i => filtered.getD i (((0:ℚ), 0, 0), 0))
    with hseleq
  have hall : indices.all (fun i => decide (i < filtered.length)) = true := by
    rw [List.all_eq_true]
    intro i hi
    rw [hindices, List.mem_map] at hi
    obtain ⟨k, hk, hik⟩ := hi
    rw [← hik]
    exact decide_eq_true (hidx k (List.mem_range.mp hk))
  have heq : raw_lidar_process_one points ranges =
      some (sel.map (fun pr => pr.1), sel.map (fun pr => pr.2)) := by
    unfold raw_lidar_process_one
    rw [if_pos hne]
    show (if indices.all (fun i => decide (i < filtered.length)) = true
        then some (sel.map (fun pr => pr.1), sel.map (fun pr => pr.2))
        else none) = _
    rw [if_pos hall]
  have hsellen : sel.length = 720 := by
    rw [hseleq, List.length_map, hindices, List.length_map, List.length_range]
  refine ⟨sel.map (fun pr => pr.1), sel.map (fun pr => pr.2), heq, ?_, ?_, ?_⟩
  · rw [List.length_map, hsellen]
  · rw [List.length_map, hsellen]
  · intro j hj
    exact sel_mem_filtered filtered indices sel hseleq hindices hidx
      hsellen j hj

/-- Counterexample to C3 as stated: the raw reading `[(0,0,1)]` with range
`[5]` is non-empty, yet every point falls outside the z-band, so the
indexing step raises (`none`) instead of returning 720-length arrays. -/
theorem raw_lidar_c3_counterexample :
    raw_lidar_process_one ([((0:ℚ), (0:ℚ), (1:ℚ))] : List Point3) [(5:ℚ)] = none ∧
    ∀ outP outR,
      raw_lidar_process_one ([((0:ℚ), (0:ℚ), (1:ℚ))] : List Point3) [(5:ℚ)] ≠ some (outP, outR) := by
  have hz : ¬ ((1:ℚ) ≤ z_max) := by norm_num [z_max]
  have hfil : (([((0:ℚ), (0:ℚ), (1:ℚ))] : List Point3).zip [(5:ℚ)]).filter
      (fun pr => decide (z_min ≤ pr.1.2.2) && decide (pr.1.2.2 ≤ z_max)) = [] := by
    simp [List.zip, List.filter, hz]
  have h := raw_lidar_none_of_empty_filter ([((0:ℚ), (0:ℚ), (1:ℚ))] : List Point3) [(5:ℚ)]
    (by simp) hfil
  refine ⟨h, fun outP outR hc => ?_⟩
  rw [h] at hc
  cases hc

/-- C3 (amended): for a reading with at least one point in the z-band the
preprocessor returns point and range arrays of length exactly 720 whose
entries are entries of the z-filtered, 970-truncated arrays (selected at the
evenly spaced indices `⌊k*(L-1)/719⌋`); for an empty reading it returns
empty arrays; but for a non-empty reading whose points all fall outside the
z-band it raises (the claim's "never raises" fails there). -/
theorem raw_lidar_process_c3 :
    (∀ (points : List Point3) (ranges : List ℚ),
      (∃ pr ∈ points.zip ranges, z_min ≤ pr.1.2.2 ∧ pr.1.2.2 ≤ z_max) →
      ∃ outP outR, raw_lidar_process_one points ranges = some (outP, outR) ∧
        outP.length = 720 ∧ outR.length = 720 ∧
        ∀ j, j < 720 →
          (outP.getD j ((0:ℚ), 0, 0), outR.getD j 0) ∈
            ((points.zip ranges).filter
              (fun pr => decide (z_min ≤ pr.1.2.2) && decide (pr.1.2.2 ≤ z_max))).take 970) ∧
    (∀ ranges : List ℚ, raw_lidar_process_one [] ranges = some ([], [])) ∧
    (∀ (points : List Point3) (ranges : List ℚ), points.length ≠ 0 →
      (points.zip ranges).filter
        (fun pr => decide (z_min ≤ pr.1.2.2) && decide (pr.1.2.2 ≤ z_max)) = [] →
      raw_lidar_process_one points ranges = none) :=
  ⟨fun points ranges => raw_lidar_some_of_survivor points ranges,
   fun _ => rfl,
   fun points ranges => raw_lidar_none_of_empty_filter points ranges⟩

/-- Witness for C3 (amended) at three concrete readings: a one-point reading
inside the band, the empty reading, and a one-point reading outside the
band. -/
theorem raw_lidar_process_c3_witness :
    (∃ outP outR,
      raw_lidar_process_one ([((0:ℚ), (0:ℚ), (0:ℚ))] : List Point3) [(3:ℚ)] = some (outP, outR) ∧
      outP.length = 720 ∧ outR.length = 720 ∧
      ∀ j, j < 720 →
        (outP.getD j ((0:ℚ), 0, 0), outR.getD j 0) ∈
          ((([((0:ℚ), (0:ℚ), (0:ℚ))] : List Point3).zip [(3:ℚ)]).filter
            (fun pr => decide (z_min ≤ pr.1.2.2) && decide (pr.1.2.2 ≤ z_max))).take 970) ∧
    raw_lidar_process_one [] [] = some ([], []) ∧
    raw_lidar_process_one ([((0:ℚ), (0:ℚ), (5:ℚ))] : List Point3) [(2:ℚ)] = none :=
  ⟨raw_lidar_process_c3.1 ([((0:ℚ), (0:ℚ), (0:ℚ))] : List Point3) [(3:ℚ)]
    ⟨((((0:ℚ), (0:ℚ), (0:ℚ)) : Point3), (3:ℚ)), by simp [List.zip],
      by norm_num [z_min], by norm_num [z_max]⟩,
   raw_lidar_process_c3.2.1 [],
   raw_lidar_process_c3.2.2 ([((0:ℚ), (0:ℚ), (5:ℚ))] : List Point3) [(2:ℚ)] (by simp)
     (by
       have hz : ¬ ((5:ℚ) ≤ z_max) := by norm_num [z_max]
       simp [List.zip, List.filter, hz])⟩

/-! ### CarterEnv._reset_idx (carter_env.py lines 281-303, C7)

The environment state relevant to reset: per-instance joint and root
buffers plus the pooling state set up at lines 172-173
(`lidar_history_data`, `pooling_tns`).  `_reset_idx` samples new joint
positions (modelled by the `noise` argument standing for `sample_uniform`),
restores defaults for the given `env_ids` and writes them to the
simulation.  It contains no assignment to `lidar_history_data` or
`pooling_tns`. -/

structure CarterState where
  joint_pos : List (List ℚ)
  joint_vel : List (List ℚ)
  sim_root_pose : List (List ℚ)
  sim_root_velocity : List (List ℚ)
  sim_joint_pos : List (List ℚ)
  sim_joint_vel : List (List ℚ)
  lidar_history_data : List (List Frame)
  pooling_tns : ℕ

/-- `m[env_ids] = new`: replace the rows named in `env_ids`, leave the
rest. -/
def writeRows (m : List (List ℚ)) (env_ids : List ℕ) (newRow : ℕ → List ℚ) :
    List (List ℚ) :=
  (List.range m.length).map
    (fun e => if e ∈ env_ids then newRow e else m.getD e [])

/-- `row[:, j] += d` for a single row. -/
def addAtIdx (row : List ℚ) (j : ℕ) (d : ℚ) : List ℚ :=
  (List.range row.length).map
    (fun k => if k = j then row.getD k 0 + d else row.getD k 0)

def reset_idx (s : CarterState) (env_ids : List ℕ)
    (default_joint_pos default_joint_vel default_root_state : ℕ → List ℚ)
    (env_origins : ℕ → List ℚ) (noise : ℕ → ℚ) (left_dof_idx : ℕ) :
    CarterState :=
  let joint_pos := fun e =>
    addAtIdx (default_joint_pos e) left_dof_idx (noise e)
  let joint_vel := default_joint_vel
  let root_state := fun e =>
    (List.zipWith (fun a b => a + b) ((default_root_state e).take 3)
      (env_origins e)) ++ (default_root_state e).drop 3
  { s with
    joint_pos := writeRows s.joint_pos env_ids joint_pos,
    joint_vel := writeRows s.joint_vel env_ids joint_vel,
    sim_root_pose :=
      writeRows s.sim_root_pose env_ids (fun e => (root_state e).take 7),
    sim_root_velocity :=
      writeRows s.sim_root_velocity env_ids (fun e => (root_state e).drop 7),
    sim_joint_pos := writeRows s.sim_joint_pos env_ids joint_pos,
    sim_joint_vel := writeRows s.sim_joint_vel env_ids joint_vel }

/-- Counterexample to C7 as stated: resetting instance 0 of a state whose
stored scan history is non-empty and whose counter is 5 leaves the history
non-empty and the counter at 5 — nothing is cleared. -/
theorem reset_idx_c7_counterexample :
    (reset_idx ⟨[[0]], [[0]], [[0]], [[0]], [[0]], [[0]], [[[1]]], 5⟩ [0]
        (fun _ => [0]) (fun _ => [0]) (fun _ => [0]) (fun _ => [0])
        (fun _ => 0) 0).lidar_history_data = [[[1]]] ∧
    (reset_idx ⟨[[0]], [[0]], [[0]], [[0]], [[0]], [[0]], [[[1]]], 5⟩ [0]
        (fun _ => [0]) (fun _ => [0]) (fun _ => [0]) (fun _ => [0])
        (fun _ => 0) 0).lidar_history_data.getD 0 [] ≠ [] ∧
    (reset_idx ⟨[[0]], [[0]], [[0]], [[0]], [[0]], [[0]], [[[1]]], 5⟩ [0]
        (fun _ => [0]) (fun _ => [0]) (fun _ => [0]) (fun _ => [0])
        (fun _ => 0) 0).pooling_tns = 5 := by
  refine ⟨rfl, ?_, rfl⟩
  intro h
  cases h

/-- C7 (amended): `_reset_idx` leaves the scan history and the pooling
counter of every instance — reset or not — unchanged; they are set only at
construction (lines 172-173) and by the pooling step itself. -/
theorem reset_idx_c7 (s : CarterState) (env_ids : List ℕ)
    (default_joint_pos default_joint_vel default_root_state : ℕ → List ℚ)
    (env_origins : ℕ → List ℚ) (noise : ℕ → ℚ) (left_dof_idx : ℕ) :
    (reset_idx s env_ids default_joint_pos default_joint_vel
      default_root_state env_origins noise left_dof_idx).lidar_history_data =
      s.lidar_history_data ∧
    (reset_idx s env_ids default_joint_pos default_joint_vel
      default_root_state env_origins noise left_dof_idx).pooling_tns =
      s.pooling_tns :=
  ⟨rfl, rfl⟩

/-! ### quaternion_to_angle (carter_env.py lines 144-150, C9)

Real-valued part of the embedding.  `torch.atan2 y x` is `Complex.arg ⟨x, y⟩`
(range `(-π, π]`); the Python float modulo `%` with a positive divisor is
`pymod`, whose result has the divisor's sign. -/

noncomputable def atan2 (y x : ℝ) : ℝ := Complex.arg ⟨x, y⟩

/-- Python `a % b` on floats: `a - b * ⌊a / b⌋`. -/
noncomputable def pymod (a b : ℝ) : ℝ := a - b * ⌊a / b⌋

/-- Lines 144-150 for one quaternion `(w, x, y, z)`. -/
noncomputable def quaternion_to_angle_one (q : ℝ × ℝ × ℝ × ℝ) : ℝ :=
  let w := q.1
  let x := q.2.1
  let y := q.2.2.1
  let z := q.2.2.2
  let r11 := 1 - 2 * (y ^ 2 + z ^ 2)
  let r21 := 2 * (x * y - w * z)
  pymod (atan2 r21 r11 + Real.pi) (2 * Real.pi) - Real.pi

/-- Shared fact: the wrap `(a + π) % (2π) - π` lands in `[-π, π)` and differs
from `a` by an integer multiple of `2π`. -/
theorem pymod_wrap (a : ℝ) :
    pymod (a + Real.pi) (2 * Real.pi) - Real.pi ∈
      Set.Ico (-Real.pi) Real.pi ∧
    ∃ k : ℤ, pymod (a + Real.pi) (2 * Real.pi) - Real.pi =
      a - 2 * Real.pi * k := by
  have hb : (0:ℝ) < 2 * Real.pi := by positivity
  have hfr : pymod (a + Real.pi) (2 * Real.pi) =
      (2 * Real.pi) * Int.fract ((a + Real.pi) / (2 * Real.pi)) := by
    unfold pymod Int.fract
    field_simp
  constructor
  · rw [Set.mem_Ico, hfr]
    have h1 := Int.fract_nonneg ((a + Real.pi) / (2 * Real.pi))
    have h2 := Int.fract_lt_one ((a + Real.pi) / (2 * Real.pi))
    constructor
    · nlinarith
    · nlinarith
  · refine ⟨⌊(a + Real.pi) / (2 * Real.pi)⌋, ?_⟩
    unfold pymod
    ring

/-- Shared characterization of `quaternion_to_angle_one`. -/
theorem quaternion_to_angle_spec (q : ℝ × ℝ × ℝ × ℝ) :
    quaternion_to_angle_one q ∈ Set.Ico (-Real.pi) Real.pi ∧
    ∃ k : ℤ, quaternion_to_angle_one q =
      atan2 (2 * (q.2.1 * q.2.2.1 - q.1 * q.2.2.2))
        (1 - 2 * (q.2.2.1 ^ 2 + q.2.2.2 ^ 2)) - 2 * Real.pi * k := by
  have h := pymod_wrap (atan2 (2 * (q.2.1 * q.2.2.1 - q.1 * q.2.2.2))
    (1 - 2 * (q.2.2.1 ^ 2 + q.2.2.2 ^ 2)))
  exact h

/-- Counterexample to C9 as stated: for the quaternion `(0,0,0,1)` the
formula's `atan2` value is `π`, which lies in `(-π, π]`, but the code's wrap
returns `-π ∉ (-π, π]`. -/
theorem quaternion_to_angle_c9_counterexample :
    quaternion_to_angle_one (0, 0, 0, 1) = -Real.pi ∧
    atan2 (2 * ((0:ℝ) * 0 - 0 * 1)) (1 - 2 * ((0:ℝ) ^ 2 + 1 ^ 2)) = Real.pi ∧
    quaternion_to_angle_one (0, 0, 0, 1) ∉ Set.Ioc (-Real.pi) Real.pi := by
  have harg : atan2 (2 * ((0:ℝ) * 0 - 0 * 1))
      (1 - 2 * ((0:ℝ) ^ 2 + 1 ^ 2)) = Real.pi := by
    have h1 : (2 * ((0:ℝ) * 0 - 0 * 1)) = 0 := by ring
    have h2 : (1 - 2 * ((0:ℝ) ^ 2 + 1 ^ 2)) = -1 := by ring
    rw [h1, h2]
    unfold atan2
    have hm : (⟨-1, 0⟩ : ℂ) = -1 := by
      apply Complex.ext <;> simp
    rw [hm, Complex.arg_neg_one]
  have hval : quaternion_to_angle_one (0, 0, 0, 1) = -Real.pi := by
    show pymod (atan2 (2 * ((0:ℝ) * 0 - 0 * 1))
      (1 - 2 * ((0:ℝ) ^ 2 + 1 ^ 2)) + Real.pi) (2 * Real.pi) - Real.pi = _
    rw [harg]
    unfold pymod
    have hq : (Real.pi + Real.pi) / (2 * Real.pi) = 1 := by
      rw [div_eq_one_iff_eq (by positivity : (2:ℝ) * Real.pi ≠ 0)]
      ring
    rw [hq, Int.floor_one]
    push_cast
    ring
  refine ⟨hval, harg, ?_⟩
  rw [hval, Set.mem_Ioc]
  push_neg
  intro hcon
  exact absurd hcon (lt_irrefl _)

/-- C9 (amended): the heading used by the goal projection equals
`atan2(2*(x*y - w*z), 1 - 2*(y² + z²))` wrapped into the half-open interval
`[-π, π)` (the code's `(angle + π) % 2π - π` maps `atan2 = π` to `-π`, so
the interval is closed on the left, not on the right). -/
theorem quaternion_to_angle_c9 (q : ℝ × ℝ × ℝ × ℝ) :
    quaternion_to_angle_one q ∈ Set.Ico (-Real.pi) Real.pi ∧
    ∃ k : ℤ, quaternion_to_angle_one q =
      atan2 (2 * (q.2.1 * q.2.2.1 - q.1 * q.2.2.2))
        (1 - 2 * (q.2.2.1 ^ 2 + q.2.2.2 ^ 2)) - 2 * Real.pi * k :=
  quaternion_to_angle_spec q

/-! ### Goal projection (carter_env.py lines 152-157, 227-236, 463-482, C5) -/

/-- Lines 152-157: 2-D rotation of the relative goal by `angle`. -/
noncomputable def goal_rotate (angle : ℝ) (relative_goal : ℝ × ℝ) : ℝ × ℝ :=
  (relative_goal.1 * Real.cos angle - relative_goal.2 * Real.sin angle,
   relative_goal.1 * Real.sin angle + relative_goal.2 * Real.cos angle)

def g_min : ℝ := -2

def g_max : ℝ := 2

/-- Lines 467-476: the pre-normalization subgoal — scaled down to the
lookahead radius when the magnitude exceeds it. -/
noncomputable def subgoal_pre (g : ℝ × ℝ) (lookahead : ℝ) : ℝ × ℝ :=
  if Real.sqrt (g.1 * g.1 + g.2 * g.2) > lookahead then
    (g.1 * (lookahead / Real.sqrt (g.1 * g.1 + g.2 * g.2)),
     g.2 * (lookahead / Real.sqrt (g.1 * g.1 + g.2 * g.2)))
  else g

/-- Line 478: the affine normalization `2*(x - g_min)/(g_max - g_min) + (-1)`
applied to each component. -/
noncomputable def subgoal_get_one (g : ℝ × ℝ) (lookahead : ℝ) : ℝ × ℝ :=
  (2 * ((subgoal_pre g lookahead).1 - g_min) / (g_max - g_min) + (-1),
   2 * ((subgoal_pre g lookahead).2 - g_min) / (g_max - g_min) + (-1))

/-- Lines 227-236: relative goal in world frame, rotated by the angle
extracted from the root quaternion, then clamped and normalized. -/
noncomputable def goal_project (goalw robot_xy : ℝ × ℝ) (q : ℝ × ℝ × ℝ × ℝ)
    (lookahead : ℝ) : ℝ × ℝ :=
  let relative := (goalw.1 - robot_xy.1, goalw.2 - robot_xy.2)
  subgoal_get_one (goal_rotate (quaternion_to_angle_one q) relative) lookahead

/-- A pure-yaw root quaternion for heading `θ`. -/
noncomputable def yawQuat (θ : ℝ) : ℝ × ℝ × ℝ × ℝ :=
  (Real.cos (θ / 2), 0, 0, Real.sin (θ / 2))

/-- Shared fact: on a pure-yaw quaternion of heading `θ`, the extracted
angle has cosine `cos θ` and sine `-sin θ` — the subsequent rotation is the
rotation by `-θ`. -/
theorem quaternion_to_angle_yaw (θ : ℝ) :
    Real.cos (quaternion_to_angle_one (yawQuat θ)) = Real.cos θ ∧
    Real.sin (quaternion_to_angle_one (yawQuat θ)) = -Real.sin θ := by
  obtain ⟨_, k, hk⟩ := quaternion_to_angle_spec (yawQuat θ)
  have hr21 : 2 * ((yawQuat θ).2.1 * (yawQuat θ).2.2.1 -
      (yawQuat θ).1 * (yawQuat θ).2.2.2) = -Real.sin θ := by
    show 2 * ((0:ℝ) * 0 - Real.cos (θ / 2) * Real.sin (θ / 2)) = -Real.sin θ
    conv_rhs => rw [show θ = 2 * (θ / 2) from by ring, Real.sin_two_mul]
    ring
  have hr11 : 1 - 2 * ((yawQuat θ).2.2.1 ^ 2 + (yawQuat θ).2.2.2 ^ 2) =
      Real.cos θ := by
    show 1 - 2 * ((0:ℝ) ^ 2 + Real.sin (θ / 2) ^ 2) = Real.cos θ
    have hc := Real.cos_two_mul (θ / 2)
    have hs := Real.sin_sq_add_cos_sq (θ / 2)
    rw [show 2 * (θ / 2) = θ from by ring] at hc
    nlinarith [hc, hs]
  rw [hr21, hr11] at hk
  have habs : Complex.abs ⟨Real.cos θ, -Real.sin θ⟩ = 1 := by
    rw [Complex.abs_apply, Complex.normSq_mk]
    have hone : Real.cos θ * Real.cos θ + -Real.sin θ * -Real.sin θ = 1 := by
      have := Real.sin_sq_add_cos_sq θ
      nlinarith
    rw [hone, Real.sqrt_one]
  have hzne : (⟨Real.cos θ, -Real.sin θ⟩ : ℂ) ≠ 0 := by
    intro h0
    rw [h0] at habs
    simp at habs
  have hcos : Real.cos (atan2 (-Real.sin θ) (Real.cos θ)) = Real.cos θ := by
    unfold atan2
    rw [Complex.cos_arg hzne, habs]
    simp
  have hsin : Real.sin (atan2 (-Real.sin θ) (Real.cos θ)) = -Real.sin θ := by
    unfold atan2
    rw [Complex.sin_arg, habs]
    simp
  constructor
  · rw [hk, show atan2 (-Real.sin θ) (Real.cos θ) - 2 * Real.pi * (k:ℝ) =
        atan2 (-Real.sin θ) (Real.cos θ) - (k:ℝ) * (2 * Real.pi) from by ring,
      Real.cos_sub_int_mul_two_pi, hcos]
  · rw [hk, show atan2 (-Real.sin θ) (Real.cos θ) - 2 * Real.pi * (k:ℝ) =
        atan2 (-Real.sin θ) (Real.cos θ) + ((-k : ℤ) : ℝ) * (2 * Real.pi)
        from by push_cast; ring,
      Real.sin_add_int_mul_two_pi, hsin]

/-- Shared fact: the scaling branch taken when the magnitude exceeds the
lookahead. -/
theorem subgoal_pre_of_gt (g : ℝ × ℝ)
    (h : Real.sqrt (g.1 * g.1 + g.2 * g.2) > 2) :
    subgoal_pre g 2 =
      (g.1 * (2 / Real.sqrt (g.1 * g.1 + g.2 * g.2)),
       g.2 * (2 / Real.sqrt (g.1 * g.1 + g.2 * g.2))) := by
  unfold subgoal_pre
  rw [if_pos h]

/-- C5: the goal projector computes `relative = goal - robot_xy`, rotates it
by the extracted angle — which on a heading-`θ` quaternion is the rotation by
`-θ` into the body frame —, uniformly scales whenever the magnitude exceeds
the lookahead 2.0 so the pre-normalization magnitude never exceeds 2.0 with
direction preserved (a positive scalar multiple), then maps each component
by the affine `[-2,2] → [-1,1]` map (which is `x ↦ x/2`); for the goal at
world `(-5,-2)` and the robot at the origin facing `+x`, the
pre-normalization vector has magnitude exactly 2.0 and the normalized
components lie in `[-1, 1]`. -/
theorem goal_projection_c5 :
    (∀ (θ : ℝ) (v : ℝ × ℝ),
      goal_rotate (quaternion_to_angle_one (yawQuat θ)) v =
        (v.1 * Real.cos θ + v.2 * Real.sin θ,
         -v.1 * Real.sin θ + v.2 * Real.cos θ)) ∧
    (∀ g : ℝ × ℝ,
      Real.sqrt ((subgoal_pre g 2).1 * (subgoal_pre g 2).1 +
        (subgoal_pre g 2).2 * (subgoal_pre g 2).2) ≤ 2) ∧
    (∀ g : ℝ × ℝ, ∃ c : ℝ, 0 < c ∧
      subgoal_pre g 2 = (c * g.1, c * g.2)) ∧
    (∀ (g : ℝ × ℝ) (lookahead : ℝ),
      subgoal_get_one g lookahead =
        ((subgoal_pre g lookahead).1 / 2, (subgoal_pre g lookahead).2 / 2)) ∧
    (goal_rotate (quaternion_to_angle_one ((1:ℝ), 0, 0, 0))
        ((-5:ℝ) - 0, (-2:ℝ) - 0) = ((-5:ℝ), -2) ∧
     Real.sqrt ((subgoal_pre ((-5:ℝ), -2) 2).1 * (subgoal_pre ((-5:ℝ), -2) 2).1 +
       (subgoal_pre ((-5:ℝ), -2) 2).2 * (subgoal_pre ((-5:ℝ), -2) 2).2) = 2 ∧
     (goal_project ((-5:ℝ), -2) (0, 0) ((1:ℝ), 0, 0, 0) 2).1 ∈
        Set.Icc (-1:ℝ) 1 ∧
     (goal_project ((-5:ℝ), -2) (0, 0) ((1:ℝ), 0, 0, 0) 2).2 ∈
        Set.Icc (-1:ℝ) 1) := by
  have ha : ∀ (θ : ℝ) (v : ℝ × ℝ),
      goal_rotate (quaternion_to_angle_one (yawQuat θ)) v =
        (v.1 * Real.cos θ + v.2 * Real.sin θ,
         -v.1 * Real.sin θ + v.2 * Real.cos θ) := by
    intro θ v
    obtain ⟨hc, hs⟩ := quaternion_to_angle_yaw θ
    unfold goal_rotate
    rw [hc, hs]
    simp only [Prod.mk.injEq]
    constructor <;> ring
  have hb1 : ∀ g : ℝ × ℝ,
      Real.sqrt ((subgoal_pre g 2).1 * (subgoal_pre g 2).1 +
        (subgoal_pre g 2).2 * (subgoal_pre g 2).2) ≤ 2 := by
    intro g
    by_cases h : Real.sqrt (g.1 * g.1 + g.2 * g.2) > 2
    · rw [subgoal_pre_of_gt g h]
      have hm2 : Real.sqrt (g.1 * g.1 + g.2 * g.2) ^ 2 = g.1 * g.1 + g.2 * g.2 :=
        Real.sq_sqrt (add_nonneg (mul_self_nonneg g.1) (mul_self_nonneg g.2))
      have hm0 : (0:ℝ) < Real.sqrt (g.1 * g.1 + g.2 * g.2) := by linarith
      have hsum : (g.1 * (2 / Real.sqrt (g.1 * g.1 + g.2 * g.2))) *
          (g.1 * (2 / Real.sqrt (g.1 * g.1 + g.2 * g.2))) +
          (g.2 * (2 / Real.sqrt (g.1 * g.1 + g.2 * g.2))) *
          (g.2 * (2 / Real.sqrt (g.1 * g.1 + g.2 * g.2))) = 4 := by
        field_simp
        nlinarith [hm2]
      show Real.sqrt _ ≤ 2
      rw [hsum, show (4:ℝ) = 2 ^ 2 from by norm_num,
        Real.sqrt_sq (by norm_num)]
    · have hpre : subgoal_pre g 2 = g := by
        unfold subgoal_pre
        rw [if_neg h]
      rw [hpre]
      push_neg at h
      exact h
  have hb2 : ∀ g : ℝ × ℝ, ∃ c : ℝ, 0 < c ∧
      subgoal_pre g 2 = (c * g.1, c * g.2) := by
    intro g
    by_cases h : Real.sqrt (g.1 * g.1 + g.2 * g.2) > 2
    · have hm0 : (0:ℝ) < Real.sqrt (g.1 * g.1 + g.2 * g.2) := by linarith
      refine ⟨2 / Real.sqrt (g.1 * g.1 + g.2 * g.2), by positivity, ?_⟩
      rw [subgoal_pre_of_gt g h]
      simp only [Prod.mk.injEq]
      constructor <;> ring
    · refine ⟨1, one_pos, ?_⟩
      unfold subgoal_pre
      rw [if_neg h, one_mul, one_mul]
  have hc : ∀ (g : ℝ × ℝ) (lookahead : ℝ),
      subgoal_get_one g lookahead =
        ((subgoal_pre g lookahead).1 / 2, (subgoal_pre g lookahead).2 / 2) := by
    intro g lookahead
    unfold subgoal_get_one g_min g_max
    simp only [Prod.mk.injEq]
    constructor <;> ring
  have hyaw0 : yawQuat 0 = ((1:ℝ), 0, 0, 0) := by
    unfold yawQuat
    norm_num
  have hrot : goal_rotate (quaternion_to_angle_one ((1:ℝ), 0, 0, 0))
      ((-5:ℝ) - 0, (-2:ℝ) - 0) = ((-5:ℝ), -2) := by
    rw [← hyaw0, ha 0 ((-5:ℝ) - 0, (-2:ℝ) - 0), Real.cos_zero, Real.sin_zero]
    norm_num
  have hgt : Real.sqrt (((-5:ℝ), (-2:ℝ)).1 * ((-5:ℝ), (-2:ℝ)).1 +
      ((-5:ℝ), (-2:ℝ)).2 * ((-5:ℝ), (-2:ℝ)).2) > 2 := by
    have h1 : ((-5:ℝ), (-2:ℝ)).1 * ((-5:ℝ), (-2:ℝ)).1 +
        ((-5:ℝ), (-2:ℝ)).2 * ((-5:ℝ), (-2:ℝ)).2 = 29 := by norm_num
    rw [h1]
    have h2 : Real.sqrt 4 < Real.sqrt 29 :=
      Real.sqrt_lt_sqrt (by norm_num) (by norm_num)
    rw [show (4:ℝ) = 2 ^ 2 from by norm_num, Real.sqrt_sq (by norm_num)] at h2
    exact h2
  have hpre : subgoal_pre ((-5:ℝ), -2) 2 =
      ((-5:ℝ) * (2 / Real.sqrt 29), (-2:ℝ) * (2 / Real.sqrt 29)) := by
    rw [subgoal_pre_of_gt ((-5:ℝ), -2) hgt]
    norm_num
  have hs29 : Real.sqrt 29 ^ 2 = 29 := Real.sq_sqrt (by norm_num)
  have hs0 : (0:ℝ) < Real.sqrt 29 := by positivity
  have hmag : Real.sqrt ((subgoal_pre ((-5:ℝ), -2) 2).1 *
      (subgoal_pre ((-5:ℝ), -2) 2).1 + (subgoal_pre ((-5:ℝ), -2) 2).2 *
      (subgoal_pre ((-5:ℝ), -2) 2).2) = 2 := by
    rw [hpre]
    have hsum : ((-5:ℝ) * (2 / Real.sqrt 29)) * ((-5:ℝ) * (2 / Real.sqrt 29)) +
        ((-2:ℝ) * (2 / Real.sqrt 29)) * ((-2:ℝ) * (2 / Real.sqrt 29)) = 4 := by
      field_simp
      nlinarith [hs29]
    show Real.sqrt _ = 2
    rw [hsum, show (4:ℝ) = 2 ^ 2 from by norm_num, Real.sqrt_sq (by norm_num)]
  have h5 : (5:ℝ) ≤ Real.sqrt 29 := by
    rw [show (5:ℝ) = Real.sqrt 25 from by
      rw [show (25:ℝ) = 5 ^ 2 from by norm_num, Real.sqrt_sq (by norm_num)]]
    exact Real.sqrt_le_sqrt (by norm_num)
  have hgp : goal_project ((-5:ℝ), -2) (0, 0) ((1:ℝ), 0, 0, 0) 2 =
      ((subgoal_pre ((-5:ℝ), -2) 2).1 / 2,
       (subgoal_pre ((-5:ℝ), -2) 2).2 / 2) := by
    show subgoal_get_one (goal_rotate (quaternion_to_angle_one ((1:ℝ), 0, 0, 0))
      ((-5:ℝ) - 0, (-2:ℝ) - 0)) 2 = _
    rw [hrot, hc ((-5:ℝ), -2) 2]
  have hx1 : (goal_project ((-5:ℝ), -2) (0, 0) ((1:ℝ), 0, 0, 0) 2).1 =
      -(5 / Real.sqrt 29) := by
    rw [hgp, hpre]
    show ((-5:ℝ) * (2 / Real.sqrt 29)) / 2 = _
    ring
  have hx2 : (goal_project ((-5:ℝ), -2) (0, 0) ((1:ℝ), 0, 0, 0) 2).2 =
      -(2 / Real.sqrt 29) := by
    rw [hgp, hpre]
    show ((-2:ℝ) * (2 / Real.sqrt 29)) / 2 = _
    ring
  have h51 : (5:ℝ) / Real.sqrt 29 ≤ 1 := (div_le_one hs0).mpr h5
  have h50 : (0:ℝ) ≤ 5 / Real.sqrt 29 := by positivity
  have h21 : (2:ℝ) / Real.sqrt 29 ≤ 1 := (div_le_one hs0).mpr (by linarith)
  have h20 : (0:ℝ) ≤ 2 / Real.sqrt 29 := by positivity
  refine ⟨ha, hb1, hb2, hc, hrot, hmag, ?_, ?_⟩
  · rw [hx1, Set.mem_Icc]
    constructor <;> linarith
  · rw [hx2, Set.mem_Icc]
    constructor <;> linarith

end Carter
